import Mathlib

/-!
Verification development for the EduVision scholarships scraper pipeline
(`src/pipeline.py`).  The claim-relevant core is shallowly embedded here:

* Python/regex string primitives used by the pipeline (`str.strip`,
  `str.lower`, substring tests, the specific regular expressions of the
  source, `" ".join`, sentence splitting);
* the parsed-page data model at the granularity the extraction code uses
  (elements with their descendant text pieces, a flat sequence of body
  nodes as in the heading-anchored section capture);
* `extract_text`, `guess_field_by_heading`, the field extraction rules of
  `extract_fields` (title, level, type, deadline, summary), the date
  normaliser `extract_date`, and the bachelor filter of `main`.

External libraries (pandas `to_datetime`, the dateutil fuzzy parse) are
modelled at the interface the source uses, restricted to the inputs the
source can feed them; each such model carries a comment saying exactly
what it models.  Machine-irrelevant parts of the pipeline (HTTP fetching,
link discovery, CSV serialisation) are outside the claims and are not
embedded.
-/

namespace EV

/-! ### Python string primitives -/

/-- Whitespace for Python's `str.strip()` / regex `\s` (Unicode mode):
ASCII whitespace, vertical tab, form feed, and the characters that occur
in this pipeline's data (`\xa0` non-breaking space).  Exotic Unicode
space characters are not modelled. -/
def pyWs (c : Char) : Bool :=
  c = ' ' || c = '\t' || c = '\n' || c = '\r' || c = '\x0b' || c = '\x0c' || c = '\xa0'

/-- Python `str.strip()` on a character list: drop whitespace from both ends. -/
def pyStrip (l : List Char) : List Char :=
  ((l.dropWhile pyWs).reverse.dropWhile pyWs).reverse

/-- Python `str.strip()` on a `String`. -/
def pyStripS (s : String) : String :=
  String.mk (pyStrip s.data)

/-- ASCII lowering of one character.  Python's `str.lower()` is
Unicode-aware; the pipeline's keyword tests only involve ASCII letters,
which is what we model. -/
def lowChar (c : Char) : Char :=
  if 'A' ≤ c && c ≤ 'Z' then Char.ofNat (c.toNat + 32) else c

/-- Python `str.lower()` (ASCII fragment). -/
def asciiLower (s : String) : String :=
  String.mk (s.data.map lowChar)

/-- Does `pat` occur as a prefix of `cs`? -/
def isPreL : List Char → List Char → Bool
  | [], _ => true
  | _ :: _, [] => false
  | p :: ps, c :: cs => p = c && isPreL ps cs

/-- Python's `pat in s` substring test, on character lists. -/
def containsSubL (cs pat : List Char) : Bool :=
  match cs with
  | [] => isPreL pat []
  | _ :: rest => isPreL pat cs || containsSubL rest pat

/-- Python's `pat in s` substring test on strings. -/
def containsSub (s pat : String) : Bool :=
  containsSubL s.data pat.data

/-- Numeric value of a digit list (tokens of the numeric date regex). -/
def natOfDigits (l : List Char) : Nat :=
  l.foldl (fun acc c => acc * 10 + (c.toNat - '0'.toNat)) 0

/-! ### The numeric date regex of `extract_date`

`re.search(r"(\d{1,2}[-∕]\d{1,2}[-∕]\d{2,4}|\d{4}[-∕]\d{1,2}[-∕]\d{1,2})", text)`:
leftmost match wins; at a given position the first alternative is tried
first; each bounded repetition `\d{m,n}` is greedy with backtracking, so
the candidate lengths are tried from `n` down to `m`. -/

/-- Test that `cs` starts with exactly `n` digits (returning the rest), used for one
greedy candidate length of `\d{m,n}`. -/
def takeDigits (n : Nat) (cs : List Char) : Option (List Char) :=
  match n, cs with
  | 0, rest => some rest
  | _ + 1, [] => none
  | n + 1, c :: rest => if c.isDigit then takeDigits n rest else none

/-- A `[-∕]` separator. -/
def sepChar (c : Char) : Bool := c = '-' || c = '/'

/-- Try candidate repetition lengths in the given (greedy) order,
feeding the remainder to the continuation; first success wins. -/
def tryLens (lens : List Nat) (cs : List Char) (k : List Char → Option Nat) : Option Nat :=
  match lens with
  | [] => none
  | n :: more =>
    match takeDigits n cs with
    | some rest =>
      match k rest with
      | some tail => some (n + tail)
      | none => tryLens more cs k
    | none => tryLens more cs k

/-- Match `\d{1,2}[-∕]\d{1,2}[-∕]\d{2,4}` starting at `cs`; returns the
match length. -/
def matchDMY (cs : List Char) : Option Nat :=
  tryLens [2, 1] cs fun r1 =>
    match r1 with
    | s :: r2 =>
      if sepChar s then
        (tryLens [2, 1] r2 fun r3 =>
          match r3 with
          | s2 :: r4 =>
            if sepChar s2 then
              (tryLens [4, 3, 2] r4 fun _ => some 0).map (· + 1)
            else none
          | [] => none).map (· + 1)
      else none
    | [] => none

/-- Match `\d{4}[-∕]\d{1,2}[-∕]\d{1,2}` starting at `cs`; returns the
match length. -/
def matchYMD (cs : List Char) : Option Nat :=
  tryLens [4] cs fun r1 =>
    match r1 with
    | s :: r2 =>
      if sepChar s then
        (tryLens [2, 1] r2 fun r3 =>
          match r3 with
          | s2 :: r4 =>
            if sepChar s2 then
              (tryLens [2, 1] r4 fun _ => some 0).map (· + 1)
            else none
          | [] => none).map (· + 1)
      else none
    | [] => none

/-- One attempt of the numeric date pattern at the current position:
first alternative, then the second. -/
def matchNumAt (cs : List Char) : Option Nat :=
  match matchDMY cs with
  | some n => some n
  | none => matchYMD cs

/-- The search `re.search` of the numeric date pattern: scan left to right, return
`group(0)` of the first position where the pattern matches. -/
def numericSearchL : List Char → Option (List Char)
  | [] => none
  | c :: rest =>
    match matchNumAt (c :: rest) with
    | some n => some ((c :: rest).take n)
    | none => numericSearchL rest

/-! ### Model of `pd.to_datetime(s, errors="coerce", dayfirst=True).date()`

This models the external pandas/dateutil date parsing the source applies
to `match.group(0)`, i.e. only to strings of the shape
`\d{1,2}[-∕]\d{1,2}[-∕]\d{2,4}` or `\d{4}[-∕]\d{1,2}[-∕]\d{1,2}`.
pandas resolves such purely numeric triplets through dateutil's
`_ymd.resolve_ymd` with `dayfirst=True, yearfirst=False`, converts
two-digit years relative to the current year (`parserinfo.convertyear`),
validates the calendar date, and coerces both parse failures and
values outside the nanosecond `Timestamp` range to `NaT` (`none` here).
`pd.NaT.date()` returns `NaT` again, so a failed coerced parse yields the
`NaT` sentinel, not an exception. -/

/-- A calendar date. -/
structure CalDate where
  year : Nat
  month : Nat
  day : Nat
deriving DecidableEq, Repr

/-- The current year as seen by dateutil's two-digit-year windowing
(`parserinfo._year`); models the system clock at analysis time. -/
def curYear : Nat := 2026

/-- dateutil `parserinfo.convertyear` with `_century = 2000`:
two-digit years (no century specified anywhere in the string) are mapped
into the window `curYear ± 50`. -/
def convertyear (y : Nat) (centurySpecified : Bool) : Nat :=
  if y < 100 && !centurySpecified then
    let y2 := y + 2000
    let dist := if y2 < curYear then curYear - y2 else y2 - curYear
    if 50 ≤ dist then (if y2 < curYear then y2 + 100 else y2 - 100) else y2
  else y

/-- Gregorian leap year (as Python `datetime`). -/
def isLeap (y : Nat) : Bool :=
  y % 4 = 0 && (y % 100 ≠ 0 || y % 400 = 0)

/-- Days in a month (as Python `datetime`). -/
def daysInMonth (y m : Nat) : Nat :=
  if m = 2 then (if isLeap y then 29 else 28)
  else if m = 4 || m = 6 || m = 9 || m = 11 then 30
  else 31

/-- Lexicographic order on (year, month, day) triples. -/
def tripleLe (a b : Nat × Nat × Nat) : Bool :=
  a.1 < b.1 || (a.1 = b.1 && (a.2.1 < b.2.1 || (a.2.1 = b.2.1 && a.2.2 ≤ b.2.2)))

/-- Within the nanosecond `pd.Timestamp` range (midnight timestamps):
1677-09-22 .. 2262-04-11.  Out-of-range parses are coerced to `NaT`. -/
def inTsBounds (y m d : Nat) : Bool :=
  tripleLe (1677, 9, 22) (y, m, d) && tripleLe (y, m, d) (2262, 4, 11)

/-- Split a numeric date match on its `[-∕]` separators. -/
def splitSeps (cs : List Char) : List (List Char) :=
  match cs with
  | [] => [[]]
  | c :: rest =>
    if sepChar c then [] :: splitSeps rest
    else
      match splitSeps rest with
      | t :: ts => (c :: t) :: ts
      | [] => [[c]]

/-- dateutil's `_ymd.resolve_ymd(yearfirst=False, dayfirst=True)` for
three numeric tokens (no month-name token), followed by year conversion,
calendar validation and the `Timestamp` range check.  `none` is pandas'
`NaT`. -/
def pdToDatetime (s : String) : Option CalDate :=
  match splitSeps s.data with
  | [t1, t2, t3] =>
    if t1.all Char.isDigit && t2.all Char.isDigit && t3.all Char.isDigit
        && t1 ≠ [] && t2 ≠ [] && t3 ≠ [] then
      let a := natOfDigits t1
      let b := natOfDigits t2
      let c := natOfDigits t3
      let centurySpecified := t1.length > 2 || t2.length > 2 || t3.length > 2
      let ystrFirst := t1.length > 2
      -- resolve_ymd, numeric-token branch:
      let (y, m, d) :=
        if a > 31 || ystrFirst then
          (if c ≤ 12 then (a, c, b) else (a, b, c))
        else if a > 12 || b ≤ 12 then (c, b, a)
        else (c, a, b)
      let y := convertyear y centurySpecified
      if 1 ≤ y && y ≤ 9999 && 1 ≤ m && m ≤ 12 && 1 ≤ d && d ≤ daysInMonth y m
          && inTsBounds y m d then
        some ⟨y, m, d⟩
      else none
    else none
  | _ => none

/-! ### Model of the dateutil fuzzy natural-language parse

`parser.parse(text, fuzzy=True, dayfirst=False, ignoretz=True).date()` is
an external library collaborator.  We model the month-name formats the
spec names ("permissive natural-language date parse ... month-name
formats"): a month name, a day number and a four-digit year found among
the alphanumeric tokens of the text.  No claim in this development
depends on the exact value this model returns. -/

/-- Month names and abbreviations recognised by the fuzzy model. -/
def monthNames : List (String × Nat) :=
  [("january", 1), ("february", 2), ("march", 3), ("april", 4), ("may", 5),
   ("june", 6), ("july", 7), ("august", 8), ("september", 9), ("october", 10),
   ("november", 11), ("december", 12),
   ("jan", 1), ("feb", 2), ("mar", 3), ("apr", 4), ("jun", 6), ("jul", 7),
   ("aug", 8), ("sep", 9), ("sept", 9), ("oct", 10), ("nov", 11), ("dec", 12)]

/-- Accumulator pass for `alnumTokens`. -/
def alnumGo : List Char → List Char → List (List Char)
  | [], cur => if cur = [] then [] else [cur.reverse]
  | c :: rest, cur =>
    if c.isAlphanum then alnumGo rest (lowChar c :: cur)
    else if cur = [] then alnumGo rest []
    else cur.reverse :: alnumGo rest []

/-- Maximal alphanumeric tokens of a string (lowered). -/
def alnumTokens (cs : List Char) : List (List Char) :=
  alnumGo cs []

/-- Fuzzy-parse model: first month-name token, first plausible day token
(1-2 digits, 1..31), first four-digit year token. -/
def fuzzyDateModel (s : String) : Option CalDate :=
  let toks := alnumTokens s.data
  let month := toks.findSome? fun t =>
    (monthNames.find? fun p => p.1.data = t).map Prod.snd
  let day := toks.findSome? fun t =>
    if t.all Char.isDigit && t ≠ [] && t.length ≤ 2 && 1 ≤ natOfDigits t && natOfDigits t ≤ 31
    then some (natOfDigits t) else none
  let year := toks.findSome? fun t =>
    if t.all Char.isDigit && t.length = 4 then some (natOfDigits t) else none
  match month, day, year with
  | some m, some d, some y =>
    if 1 ≤ d && d ≤ daysInMonth y m && 1 ≤ y && y ≤ 9999 then some ⟨y, m, d⟩ else none
  | _, _, _ => none

/-! ### `extract_date` -/

/-- A Python value passed to `extract_date` (the `isinstance(text, str)`
test distinguishes strings from everything else). -/
inductive PyObj
  | str (s : String)
  | nonStr
deriving DecidableEq

/-- The possible results of `extract_date`: Python `None`, a
`datetime.date`, or pandas `NaT` (what `pd.to_datetime(..,
errors="coerce").date()` yields on an unparseable numeric match). -/
inductive PyDate
  | pynone
  | pynat
  | pydate (d : CalDate)
deriving DecidableEq, Repr

/-- Python `s.startswith(pre)`. -/
def startsWithL (s pre : String) : Bool :=
  isPreL pre.data s.data

/-- The `startswith(("n.a", "na", "n/a"))` test of `extract_date`,
applied to the stripped, lowered input. -/
def naStart (s : String) : Bool :=
  startsWithL s "n.a" || startsWithL s "na" || startsWithL s "n/a"

/-- The function `extract_date` of `src/pipeline.py` (lines 176-194).  Note that
`pd.to_datetime(..., errors="coerce")` never raises on a string operand,
so the surrounding `try/except` never fires: a failed numeric parse
returns `NaT` (from `NaT.date()`) and does not fall through to the fuzzy
parse. -/
def extract_date (x : PyObj) : PyDate :=
  match x with
  | .nonStr => .pynone
  | .str s =>
    if pyStripS s = "" then .pynone
    else if naStart (asciiLower (pyStripS s)) then .pynone
    else
      match numericSearchL s.data with
      | some g =>
        match pdToDatetime (String.mk g) with
        | some d => .pydate d
        | none => .pynat
      | none =>
        match fuzzyDateModel s with
        | some d => .pydate d
        | none => .pynone

/-- Instrumented twin of `extract_date`: the result together with two
flags recording whether the numeric-pattern step and the fuzzy
natural-language step were attempted. -/
def extract_dateI (x : PyObj) : PyDate × Bool × Bool :=
  match x with
  | .nonStr => (.pynone, false, false)
  | .str s =>
    if pyStripS s = "" then (.pynone, false, false)
    else if naStart (asciiLower (pyStripS s)) then (.pynone, false, false)
    else
      match numericSearchL s.data with
      | some g =>
        match pdToDatetime (String.mk g) with
        | some d => (.pydate d, true, false)
        | none => (.pynat, true, false)
      | none =>
        match fuzzyDateModel s with
        | some d => (.pydate d, true, true)
        | none => (.pynone, true, true)

/-- The early-return guard of `extract_date` (its first two `if`s):
non-string input, empty/whitespace-only input, or stripped text whose
lower-cased form starts with one of "n.a", "na", "n/a". -/
def c3Guard : PyObj → Bool
  | .nonStr => true
  | .str s => (pyStripS s == "") || naStart (asciiLower (pyStripS s))

/-! ### Level and type tagging of `extract_fields`

The level tests are the regex searches of lines 121-125, run over
`text_lower = full_content.lower()`; `\b` is a word boundary (a word
character is `[a-zA-Z0-9_]`).  The type test is plain substring presence
of "merit" / "need" (lines 129-135). -/

/-- Regex word character (ASCII fragment of Python's `\w`). -/
def wordChar (c : Char) : Bool :=
  c.isAlphanum || c = '_'

/-- No word character starts here (right-hand `\b` after a word char, or
end of string). -/
def boundaryAfter : List Char → Bool
  | [] => true
  | c :: _ => !wordChar c

/-- Scan for `pat` with a word boundary on the left (pattern starts with a
word character) and, when `needRight` is set, a word boundary after it. -/
def wbGo (pat : List Char) (needRight : Bool) : Option Char → List Char → Bool
  | _, [] => false
  | prev, c :: rest =>
    ((match prev with | none => true | some p => !wordChar p) &&
      isPreL pat (c :: rest) &&
      (!needRight || boundaryAfter ((c :: rest).drop pat.length))) ||
    wbGo pat needRight (some c) rest

/-- Success of `re.search` for `\b`-anchored literal patterns. -/
def wbSearch (s : String) (pat : String) (needRight : Bool) : Bool :=
  wbGo pat.data needRight none s.data

/-- Test `re.search(r"\bmatric\b", t)`. -/
def testMatric (t : String) : Bool := wbSearch t "matric" true

/-- Test `re.search(r"\binter\b|intermediate", t)`. -/
def testInter (t : String) : Bool := wbSearch t "inter" true || containsSub t "intermediate"

/-- Test `re.search(r"\bbachelor|undergrad", t)`. -/
def testBach (t : String) : Bool := wbSearch t "bachelor" false || containsSub t "undergrad"

/-- Test `re.search(r"\bms|m\.phil|master", t)` (the `m\.phil` alternative is
the literal "m.phil"). -/
def testMs (t : String) : Bool :=
  wbSearch t "ms" false || containsSub t "m.phil" || containsSub t "master"

/-- Test `re.search(r"\bphd|doctoral", t)`. -/
def testPhd (t : String) : Bool := wbSearch t "phd" false || containsSub t "doctoral"

/-- The `level` list built by the five conditional appends of lines
121-125 (in program order). -/
def levelList (t : String) : List String :=
  (if testMatric t then ["Matric"] else []) ++
  (if testInter t then ["Intermediate"] else []) ++
  (if testBach t then ["Bachelor"] else []) ++
  (if testMs t then ["Masters/MPhil"] else []) ++
  (if testPhd t then ["PhD"] else [])

/-- Lexicographic comparison of strings by code point, as Python `<` on
`str` for these ASCII labels. -/
def strLtB : List Char → List Char → Bool
  | [], [] => false
  | [], _ :: _ => true
  | _ :: _, [] => false
  | a :: as, b :: bs =>
    if a.toNat < b.toNat then true
    else if b.toNat < a.toNat then false
    else strLtB as bs

/-- Insert into a sorted list (ascending, stable). -/
def insertStr (x : String) : List String → List String
  | [] => [x]
  | y :: ys => if strLtB y.data x.data then y :: insertStr x ys else x :: y :: ys

/-- Python `sorted` (ascending insertion sort). -/
def pySorted (l : List String) : List String :=
  l.foldr insertStr []

/-- Python `sep.join(l)`. -/
def joinSep (sep : String) : List String → String
  | [] => ""
  | [x] => x
  | x :: xs => x ++ sep ++ joinSep sep xs

/-- The `level` field: `", ".join(sorted(set(level)))` (line 126); the
`set` pass is order-insensitive deduplication, which `sorted` then
normalises, so it is modelled by `List.dedup` before sorting. -/
def levelOf (content : String) : String :=
  joinSep ", " (pySorted ((levelList (asciiLower content)).dedup))

/-- The fixed level vocabulary with each term's associated regex test, in
the order of the source. -/
def levelVocab : List (String × (String → Bool)) :=
  [("Matric", testMatric), ("Intermediate", testInter), ("Bachelor", testBach),
   ("Masters/MPhil", testMs), ("PhD", testPhd)]

/-- The level field as the spec describes it: the comma-joined, sorted,
duplicate-free subset of the fixed vocabulary whose associated test
matches the lowercase full content. -/
def specLevel (content : String) : String :=
  joinSep ", " (pySorted ((levelVocab.filter (fun p => p.2 (asciiLower content))).map Prod.fst))

/-- The `type` field (lines 129-135). -/
def typeOf (content : String) : String :=
  if containsSub (asciiLower content) "merit" && containsSub (asciiLower content) "need" then
    "Merit & Need Based"
  else if containsSub (asciiLower content) "merit" then "Merit Based"
  else if containsSub (asciiLower content) "need" then "Need Based"
  else ""

/-! ### The parsed page model

A parsed element is modelled by the list of its descendant raw text
pieces; `extract_text(el) = " ".join(el.stripped_strings)` strips each
piece and drops the empty ones.  The main content region is modelled as a
flat sequence of sibling nodes (headings `h1`-`h6` and other tags), the
shape `guess_field_by_heading` walks with `find_all`/`next_siblings`; the
title candidates (`h1`, `.post-title`, `title`) are carried separately as
optional elements. -/

structure Element where
  texts : List String
deriving DecidableEq

inductive BNode
  | heading (lvl : Nat) (el : Element)
  | tag (el : Element)
deriving DecidableEq

structure Page where
  h1 : Option Element
  postTitle : Option Element
  docTitle : Option Element
  body : List BNode
deriving DecidableEq

/-- Python `" ".join` on character lists: single separating space between
consecutive entries. -/
def joinSp : List (List Char) → List Char
  | [] => []
  | [u] => u
  | u :: us => u ++ ' ' :: joinSp us

/-- The stripped, non-empty text pieces of an element
(`stripped_strings`). -/
def stripPieces (ps : List String) : List (List Char) :=
  (ps.map fun s => pyStrip s.data).filter (· ≠ [])

/-- Function `extract_text(el)` (lines 73-74): space-joined stripped strings. -/
def extract_text (el : Element) : String :=
  String.mk (joinSp (stripPieces el.texts))

/-- Applying `extract_text` to an optional element (`if el else ""`). -/
def extract_textOpt : Option Element → String
  | some el => extract_text el
  | none => ""

/-- The element a body node carries. -/
def bodyEl : BNode → Element
  | .heading _ el => el
  | .tag el => el

/-- Is this node a heading (`re.match(r"^h[1-6]$", sib.name)`)? -/
def isHeadingB : BNode → Bool
  | .heading _ _ => true
  | .tag _ => false

/-- The substitution `.replace("\xa0", " ")` (line 101). -/
def replaceNbspL (l : List Char) : List Char :=
  l.map fun c => if c = '\xa0' then ' ' else c

/-- Computation `full_content = extract_text(main).replace("\xa0", " ")` (lines
100-101): the stripped strings of the whole main region are the
concatenation of its nodes' pieces in document order. -/
def fullContent (pg : Page) : String :=
  String.mk (replaceNbspL (joinSp (stripPieces ((pg.body.map fun n => (bodyEl n).texts).flatten))))

/-- Computation `title = extract_text(soup.select_one("h1") or soup.select_one(".post-title")
or soup.select_one("title"))` (line 97).  Python `or` on elements picks
the first one that is *present* (a tag is truthy even with empty text). -/
def titleOf (pg : Page) : String :=
  extract_textOpt (pg.h1 <|> pg.postTitle <|> pg.docTitle)

/-- The title rule as the spec words it: the first *non-empty text* among
the three candidates, in priority order. -/
def specTitle (pg : Page) : String :=
  if extract_textOpt pg.h1 ≠ "" then extract_textOpt pg.h1
  else if extract_textOpt pg.postTitle ≠ "" then extract_textOpt pg.postTitle
  else extract_textOpt pg.docTitle

/-- The title rule as the code implements it: the extracted text of the
first candidate element that exists on the page. -/
def firstPresentTitle (pg : Page) : String :=
  match pg.h1 with
  | some el => extract_text el
  | none =>
    match pg.postTitle with
    | some el => extract_text el
    | none =>
      match pg.docTitle with
      | some el => extract_text el
      | none => ""

/-- The section text collected after a matched heading: every following
sibling's `extract_text` (empty ones included) up to the next heading,
space-joined and stripped (lines 81-87). -/
def sectionText (rest : List BNode) : String :=
  pyStripS (String.mk (joinSp ((rest.takeWhile fun n => !isHeadingB n).map
    fun n => (extract_text (bodyEl n)).data)))

/-- Function `guess_field_by_heading(soup, heading_texts)` (lines 76-88): the first
heading whose lowered text contains any keyword wins; no matching heading
yields "". -/
def guessFieldByHeading : List BNode → List String → String
  | [], _ => ""
  | BNode.heading _ el :: rest, keys =>
    if keys.any (fun k => containsSub (asciiLower (extract_text el)) k) then
      sectionText rest
    else guessFieldByHeading rest keys
  | BNode.tag _ :: rest, keys => guessFieldByHeading rest keys

/-! ### The deadline regex

`re.search(r"(last date|deadline|apply by)\s*:?([^\n\r]+)", full_content,
re.IGNORECASE)`: leftmost match; at one position the three label
alternatives (mutually exclusive by first letter), then greedy `\s*` with
backtracking, an optional colon, and a greedy run of at least one
non-newline character as `group(2)`. -/

/-- Case-insensitive literal prefix test (pattern already lowercase). -/
def isPreCI : List Char → List Char → Bool
  | [], _ => true
  | _ :: _, [] => false
  | p :: ps, c :: cs => p = lowChar c && isPreCI ps cs

/-- The label alternation at the current position; returns the match
length. -/
def labelAt (cs : List Char) : Option Nat :=
  if isPreCI ("last date" : String).data cs then some 9
  else if isPreCI ("deadline" : String).data cs then some 8
  else if isPreCI ("apply by" : String).data cs then some 8
  else none

/-- Greedy `[^\n\r]+` run. -/
def nonNLrun (cs : List Char) : List Char :=
  cs.takeWhile fun c => !(c = '\n' || c = '\r')

/-- Pattern `:?([^\n\r]+)` at a fixed position: colon branch first (greedy `:?`),
then the empty branch; `group(2)` must be non-empty. -/
def tailAttempt (rest : List Char) : Option (List Char) :=
  match rest with
  | ':' :: r2 =>
    let g := nonNLrun r2
    if g ≠ [] then some g
    else
      let g2 := nonNLrun rest
      if g2 ≠ [] then some g2 else none
  | _ =>
    let g2 := nonNLrun rest
    if g2 ≠ [] then some g2 else none

/-- Backtracking over the greedy `\s*`: try consuming `w` whitespace
characters, from the maximal run length down to zero. -/
def tryW : Nat → List Char → Option (List Char)
  | 0, cs => tailAttempt cs
  | w + 1, cs =>
    match tailAttempt (cs.drop (w + 1)) with
    | some g => some g
    | none => tryW w cs

/-- Pattern `\s*:?([^\n\r]+)` after the label. -/
def dlTail (cs : List Char) : Option (List Char) :=
  tryW (cs.takeWhile pyWs).length cs

/-- The search `re.search` of the deadline pattern; returns `group(2)` of the first
position where the whole pattern matches. -/
def dlSearchL : List Char → Option (List Char)
  | [] => none
  | c :: rest =>
    match labelAt (c :: rest) with
    | some n =>
      match dlTail ((c :: rest).drop n) with
      | some g => some g
      | none => dlSearchL rest
    | none => dlSearchL rest

/-- The heading keywords of the deadline fallback (line 111). -/
def deadlineKeys : List String := ["deadline", "last date", "apply by", "closing date"]

/-- The regex-derived deadline string: `m.group(2).strip()` if the search
matched, else "" (lines 106-109). -/
def regexDeadline (pg : Page) : String :=
  match dlSearchL (fullContent pg).data with
  | some g => pyStripS (String.mk g)
  | none => ""

/-- The `deadline` field (lines 106-111): the heading fallback runs
whenever the regex-derived deadline is empty. -/
def deadlineOf (pg : Page) : String :=
  if regexDeadline pg = "" then guessFieldByHeading pg.body deadlineKeys
  else regexDeadline pg

/-- The deadline rule as the claim words it: the stripped captured text
when the regex search matches, the heading fallback exactly when it does
not match. -/
def specDeadline (pg : Page) : String :=
  match dlSearchL (fullContent pg).data with
  | some g => pyStripS (String.mk g)
  | none => guessFieldByHeading pg.body deadlineKeys

/-! ### The summary split

`re.split(r"(?<=[.!?])\s+", full_content)`: the string is cut at every
maximal whitespace run whose preceding character is `.`, `!` or `?`; the
runs are discarded.  A trailing run produces a final empty piece, as in
Python. -/

/-- Sentence-final punctuation of the split pattern. -/
def sentPunct (c : Char) : Bool := c = '.' || c = '!' || c = '?'

/-- Is the previous character sentence-final punctuation (the lookbehind)? -/
def prevPunct : Option Char → Bool
  | some c => sentPunct c
  | none => false

/-- One-pass splitter: `acc` is the reversed current piece, `prev` the
previous character, `inWs` whether we are inside a separating whitespace
run. -/
def goSplit : List Char → List Char → Option Char → Bool → List (List Char)
  | [], acc, _, _ => [acc.reverse]
  | c :: rest, acc, prev, true =>
    if pyWs c then goSplit rest acc prev true
    else goSplit rest [c] (some c) false
  | c :: rest, acc, prev, false =>
    if pyWs c && prevPunct prev then acc.reverse :: goSplit rest [] none true
    else goSplit rest (c :: acc) (some c) false

/-- Split `re.split(r"(?<=[.!?])\s+", ...)` on a character list. -/
def sentSplit (cs : List Char) : List (List Char) :=
  goSplit cs [] none false

/-- The `summary` field (line 157):
`" ".join(re.split(r"(?<=[.!?])\s+", full_content)[:3]).strip()`. -/
def summaryOf (pg : Page) : String :=
  pyStripS (String.mk (joinSp ((sentSplit (fullContent pg).data).take 3)))

/-! ### `extract_fields` and the bachelor filter of `main` -/

/-- The claim-relevant fields of the record `extract_fields` returns
(lines 159-173).  `scraped_at`, `url` and the fields no claim mentions
are not modelled. -/
structure Record where
  title : String
  level : String
  type_ : String
  deadline : String
  summary : String
  full_content : String
deriving DecidableEq

/-- Function `extract_fields` (lines 90-173), restricted to the claim-relevant
fields. -/
def extract_fields (pg : Page) : Record :=
  ⟨titleOf pg, levelOf (fullContent pg), typeOf (fullContent pg), deadlineOf pg,
   summaryOf pg, fullContent pg⟩

/-- A collected record extended with the derived `clean_deadline` column
(line 229). -/
structure CleanRecord where
  base : Record
  clean_deadline : PyDate
deriving DecidableEq

/-- Assignment `df["clean_deadline"] = df["deadline"].apply(extract_date)`. -/
def addClean (r : Record) : CleanRecord :=
  ⟨r, extract_date (PyObj.str r.deadline)⟩

/-- Filter `df["level"].str.contains("Bachelor", case=False, na=False)`: a
case-insensitive substring test ("Bachelor" has no regex
metacharacters; the level strings are never missing). -/
def bachelorTest (level : String) : Bool :=
  containsSub (asciiLower level) (asciiLower "Bachelor")

/-- The bachelor-filter output of `main` (lines 229-235): extend every
collected record with `clean_deadline`, then keep the rows whose level
contains "Bachelor". -/
def bachelorsOutput (rs : List Record) : List CleanRecord :=
  (rs.map addClean).filter fun c => bachelorTest c.base.level

/-- The instrumented and plain versions agree on the result. -/
theorem extract_date_eq_I (x : PyObj) : extract_date x = (extract_dateI x).1 := by
  cases x with
  | nonStr => rfl
  | str s =>
    unfold extract_date extract_dateI
    by_cases h1 : pyStripS s = "" <;> simp [h1]
    by_cases h2 : naStart (asciiLower (pyStripS s)) <;> simp [h2]
    cases hg : numericSearchL s.data with
    | none => cases hf : fuzzyDateModel s <;> simp [hf]
    | some g => cases hp : pdToDatetime (String.mk g) <;> simp [hp]


/-- C1 refutation: on "31-31-2024" the numeric pattern is found and its
parse fails, yet `extract_date` returns the `NaT` sentinel — neither a
calendar date nor `None` — and the fuzzy natural-language parse is never
attempted. -/
theorem c1_counterexample :
    numericSearchL ("31-31-2024" : String).data = some ("31-31-2024" : String).data ∧
    pdToDatetime "31-31-2024" = none ∧
    extract_date (PyObj.str "31-31-2024") = PyDate.pynat ∧
    PyDate.pynat ≠ PyDate.pynone ∧
    (extract_dateI (PyObj.str "31-31-2024")).2.2 = false := by
  refine ⟨?_, ?_, ?_, ?_, ?_⟩ <;> decide

/-- C1 (amended): whenever the input passes the early guards, the numeric
date pattern is found, and the matched text does not parse as a calendar
date, `extract_date` returns the `NaT` sentinel directly — the coercing
parse swallows the failure, no exception propagates, and the fuzzy
natural-language parse is not attempted. -/
theorem c1_amended (s : String) (g : List Char)
    (h1 : pyStripS s ≠ "")
    (h2 : naStart (asciiLower (pyStripS s)) = false)
    (h3 : numericSearchL s.data = some g)
    (h4 : pdToDatetime (String.mk g) = none) :
    extract_date (PyObj.str s) = PyDate.pynat ∧
    (extract_dateI (PyObj.str s)).2.2 = false := by
  unfold extract_date extract_dateI
  simp [h1, h2, h3, h4]

/-- Witness for `c1_amended` at the concrete input "32-13-2024". -/
theorem c1_amended_witness :
    extract_date (PyObj.str "32-13-2024") = PyDate.pynat ∧
    (extract_dateI (PyObj.str "32-13-2024")).2.2 = false :=
  c1_amended "32-13-2024" ("32-13-2024" : String).data (by decide) (by decide)
    (by decide) (by decide)

/-- C2: "15-02-2024" is parsed day-first to 2024-02-15, and "2024-02-15"
is parsed to 2024-02-15. -/
theorem c2_numeric_precedence :
    extract_date (PyObj.str "15-02-2024") = PyDate.pydate ⟨2024, 2, 15⟩ ∧
    extract_date (PyObj.str "2024-02-15") = PyDate.pydate ⟨2024, 2, 15⟩ := by
  constructor <;> decide

/-- C3: non-string, empty/whitespace-only, or "n.a"/"na"/"n/a"-started
inputs yield the unparseable sentinel `None`, and neither the numeric
parse nor the fuzzy parse is attempted. -/
theorem c3_guard_unparseable (x : PyObj) (h : c3Guard x = true) :
    extract_date x = PyDate.pynone ∧
    extract_dateI x = (PyDate.pynone, false, false) := by
  cases x with
  | nonStr => exact ⟨rfl, rfl⟩
  | str s =>
    unfold extract_date extract_dateI
    rcases (Bool.or_eq_true _ _).mp h with h' | h'
    · have he : pyStripS s = "" := by simpa using h'
      simp [he]
    · by_cases h1 : pyStripS s = "" <;> simp [h1, h']

/-- Witness for `c3_guard_unparseable` at the concrete input "N/A". -/
theorem c3_witness :
    extract_date (PyObj.str "N/A") = PyDate.pynone ∧
    extract_dateI (PyObj.str "N/A") = (PyDate.pynone, false, false) :=
  c3_guard_unparseable (PyObj.str "N/A") (by decide)

/-- The code's append-then-sort level computation equals the sorted,
de-duplicated matching subset of the vocabulary. -/
theorem levelOf_spec (content : String) : levelOf content = specLevel content := by
  unfold levelOf specLevel levelList levelVocab
  cases h1 : testMatric (asciiLower content) <;>
  cases h2 : testInter (asciiLower content) <;>
  cases h3 : testBach (asciiLower content) <;>
  cases h4 : testMs (asciiLower content) <;>
  cases h5 : testPhd (asciiLower content) <;>
    simp only [h1, h2, h3, h4, h5, List.filter, List.map] <;> rfl


/-- Four-way characterisation of the `type` field. -/
theorem typeOf_cases (content : String) :
    (typeOf content = "Merit & Need Based" ↔
      containsSub (asciiLower content) "merit" = true ∧
      containsSub (asciiLower content) "need" = true) ∧
    (typeOf content = "Merit Based" ↔
      containsSub (asciiLower content) "merit" = true ∧
      containsSub (asciiLower content) "need" = false) ∧
    (typeOf content = "Need Based" ↔
      containsSub (asciiLower content) "merit" = false ∧
      containsSub (asciiLower content) "need" = true) ∧
    (typeOf content = "" ↔
      containsSub (asciiLower content) "merit" = false ∧
      containsSub (asciiLower content) "need" = false) := by
  unfold typeOf
  cases hm : containsSub (asciiLower content) "merit" <;>
  cases hn : containsSub (asciiLower content) "need" <;>
    simp only [hm, hn] <;> decide


/-! ### Claim theorems about the extracted fields -/

/-- C4: for every page, the `level` field equals the comma-joined,
sorted, duplicate-free subset of the fixed vocabulary whose associated
word-boundary test matches the lowercase full content. -/
theorem c4_level_field (pg : Page) :
    (extract_fields pg).level = specLevel (fullContent pg) :=
  levelOf_spec (fullContent pg)

/-- C5: the `type` field is "Merit & Need Based" iff both "merit" and
"need" occur in the lowercase full content, "Merit Based" iff only
"merit", "Need Based" iff only "need", and "" iff neither — mutually
exclusive and exhaustive. -/
theorem c5_type_field (pg : Page) :
    ((extract_fields pg).type_ = "Merit & Need Based" ↔
      containsSub (asciiLower (fullContent pg)) "merit" = true ∧
      containsSub (asciiLower (fullContent pg)) "need" = true) ∧
    ((extract_fields pg).type_ = "Merit Based" ↔
      containsSub (asciiLower (fullContent pg)) "merit" = true ∧
      containsSub (asciiLower (fullContent pg)) "need" = false) ∧
    ((extract_fields pg).type_ = "Need Based" ↔
      containsSub (asciiLower (fullContent pg)) "merit" = false ∧
      containsSub (asciiLower (fullContent pg)) "need" = true) ∧
    ((extract_fields pg).type_ = "" ↔
      containsSub (asciiLower (fullContent pg)) "merit" = false ∧
      containsSub (asciiLower (fullContent pg)) "need" = false) :=
  typeOf_cases (fullContent pg)

/-- C6 refutation: on a page whose `h1` element exists but holds only a
whitespace text node (so its extracted text is empty) while the document
title element has text "Foo", the code takes the present-but-empty-texted
`h1` and returns "", not "Foo" as the first-non-empty rule would. -/
theorem c6_counterexample :
    (extract_fields ⟨some ⟨[" "]⟩, none, some ⟨["Foo"]⟩, []⟩).title = "" ∧
    specTitle ⟨some ⟨[" "]⟩, none, some ⟨["Foo"]⟩, []⟩ = "Foo" ∧
    (extract_fields ⟨some ⟨[" "]⟩, none, some ⟨["Foo"]⟩, []⟩).title ≠
      specTitle ⟨some ⟨[" "]⟩, none, some ⟨["Foo"]⟩, []⟩ := by
  refine ⟨rfl, rfl, ?_⟩
  decide

/-- C6 (amended): the `title` field is the extracted text of the first
candidate element *present* on the page (h1, then the post-title
element, then the document title element); a later candidate supplies
the title only when every earlier candidate is absent, not merely
empty-texted. -/
theorem c6_amended (pg : Page) :
    (extract_fields pg).title = firstPresentTitle pg := by
  rcases pg with ⟨h1, pt, dt, body⟩
  cases h1 <;> cases pt <;> cases dt <;> rfl

/-- C7 refutation: a page whose content matches the deadline label regex
with a whitespace-only captured tail ("Deadline: " before a newline)
still uses the heading fallback, so the deadline is not the stripped
captured text ("") that the claim's exactly-on-no-match rule predicts. -/
theorem c7_counterexample :
    dlSearchL (fullContent ⟨none, none, none, [BNode.tag ⟨["Deadline: \nTBD"]⟩,
      BNode.heading 2 ⟨["Closing Date"]⟩, BNode.tag ⟨["1 March 2025"]⟩]⟩).data = some [' '] ∧
    (extract_fields ⟨none, none, none, [BNode.tag ⟨["Deadline: \nTBD"]⟩,
      BNode.heading 2 ⟨["Closing Date"]⟩, BNode.tag ⟨["1 March 2025"]⟩]⟩).deadline
      = "1 March 2025" ∧
    specDeadline ⟨none, none, none, [BNode.tag ⟨["Deadline: \nTBD"]⟩,
      BNode.heading 2 ⟨["Closing Date"]⟩, BNode.tag ⟨["1 March 2025"]⟩]⟩ = "" ∧
    (extract_fields ⟨none, none, none, [BNode.tag ⟨["Deadline: \nTBD"]⟩,
      BNode.heading 2 ⟨["Closing Date"]⟩, BNode.tag ⟨["1 March 2025"]⟩]⟩).deadline ≠
      specDeadline ⟨none, none, none, [BNode.tag ⟨["Deadline: \nTBD"]⟩,
        BNode.heading 2 ⟨["Closing Date"]⟩, BNode.tag ⟨["1 March 2025"]⟩]⟩ := by
  refine ⟨rfl, rfl, rfl, ?_⟩
  decide

/-- C7 (amended): the `deadline` field is the stripped trailing text
captured after a label word with an optional colon whenever that
stripped capture is non-empty; the heading fallback is used exactly when
the regex-derived deadline is empty after stripping (no match, or a
whitespace-only capture). -/
theorem c7_amended (pg : Page) :
    (regexDeadline pg = "" →
      (extract_fields pg).deadline = guessFieldByHeading pg.body deadlineKeys) ∧
    (regexDeadline pg ≠ "" → (extract_fields pg).deadline = regexDeadline pg) := by
  show (_ → deadlineOf pg = _) ∧ (_ → deadlineOf pg = _)
  unfold deadlineOf
  by_cases h : regexDeadline pg = "" <;> simp [h]

/-- Witness for `c7_amended` on a page with no deadline label at all. -/
theorem c7_amended_witness :
    (extract_fields ⟨none, none, none, [BNode.heading 4 ⟨["Closing Date"]⟩,
      BNode.tag ⟨["30 June 2026"]⟩]⟩).deadline =
      guessFieldByHeading [BNode.heading 4 ⟨["Closing Date"]⟩, BNode.tag ⟨["30 June 2026"]⟩]
        deadlineKeys :=
  (c7_amended ⟨none, none, none, [BNode.heading 4 ⟨["Closing Date"]⟩,
    BNode.tag ⟨["30 June 2026"]⟩]⟩).1 (by decide)

/-- C10: whenever the deadline label regex matches but the captured
trailing text strips to the empty string, `extract_fields` still invokes
the heading-based fallback — the fallback triggers on an empty stripped
capture, not only on a failed search. -/
theorem c10_empty_capture_fallback (pg : Page) (g : List Char)
    (h1 : dlSearchL (fullContent pg).data = some g)
    (h2 : pyStrip g = []) :
    (extract_fields pg).deadline = guessFieldByHeading pg.body deadlineKeys := by
  have hr : regexDeadline pg = "" := by
    unfold regexDeadline
    rw [h1]
    show String.mk (pyStrip g) = ""
    rw [h2]
  show deadlineOf pg = _
  unfold deadlineOf
  simp [hr]

/-- Witness for `c10_empty_capture_fallback`: a page where the label
matches with a whitespace-only capture and the fallback section is
used. -/
theorem c10_witness :
    (extract_fields ⟨none, none, none, [BNode.tag ⟨["Last date: \nlater"]⟩,
      BNode.heading 3 ⟨["Apply By"]⟩, BNode.tag ⟨["10-01-2026"]⟩]⟩).deadline =
      guessFieldByHeading [BNode.tag ⟨["Last date: \nlater"]⟩,
        BNode.heading 3 ⟨["Apply By"]⟩, BNode.tag ⟨["10-01-2026"]⟩] deadlineKeys :=
  c10_empty_capture_fallback ⟨none, none, none, [BNode.tag ⟨["Last date: \nlater"]⟩,
    BNode.heading 3 ⟨["Apply By"]⟩, BNode.tag ⟨["10-01-2026"]⟩]⟩ [' ']
    (by decide) (by decide)

/-- C9: the bachelor-filter output is exactly the collected records whose
`level` contains "Bachelor" case-insensitively, each extended with
`clean_deadline = extract_date(deadline)`; all other records are
excluded. -/
theorem c9_bachelor_filter (rs : List Record) :
    bachelorsOutput rs = (rs.filter fun r => bachelorTest r.level).map addClean := by
  induction rs with
  | nil => rfl
  | cons r t ih =>
    unfold bachelorsOutput at ih ⊢
    simp only [List.map_cons, List.filter_cons]
    cases h : bachelorTest r.level with
    | false =>
      have hb : bachelorTest (addClean r).base.level = false := h
      simp [hb, ih, h]
    | true =>
      have hb : bachelorTest (addClean r).base.level = true := h
      simp [hb, ih, h]

/-! ### The summary split: the trailing `.strip()` is a no-op

`full_content` is built by space-joining stripped non-empty pieces, so it
is empty or has non-whitespace characters at both ends; every piece the
sentence split produces then also has non-whitespace ends, hence so does
the space-join of the first three, and the final `.strip()` of the
summary changes nothing. -/

/-- A character list with non-whitespace characters at both ends. -/
def goodL (l : List Char) : Prop :=
  (∃ a, l.head? = some a ∧ pyWs a = false) ∧ (∃ b, l.getLast? = some b ∧ pyWs b = false)

/-- The head of `dropWhile pyWs` is not whitespace. -/
theorem head_dropWhile_ws (l : List Char) (a : Char)
    (h : (l.dropWhile pyWs).head? = some a) : pyWs a = false := by
  induction l with
  | nil => simp [List.dropWhile] at h
  | cons c t ih =>
    rw [List.dropWhile_cons] at h
    by_cases hc : pyWs c
    · rw [if_pos hc] at h; exact ih h
    · rw [if_neg hc] at h
      simp at h
      rw [← h]
      simpa using hc

/-- A cons keeps the `getLast?` of its non-empty tail. -/
theorem getLast?_cons_of_ne {α : Type} (c : α) (rest : List α) (b : α)
    (hb : rest.getLast? = some b) : (c :: rest).getLast? = some b := by
  cases rest with
  | nil => simp at hb
  | cons x xs => rw [List.getLast?_cons_cons]; exact hb

/-- A non-empty `dropWhile` keeps the `getLast?` of its argument. -/
theorem getLast?_dropWhile_ws (l : List Char) (h : l.dropWhile pyWs ≠ []) :
    (l.dropWhile pyWs).getLast? = l.getLast? := by
  induction l with
  | nil => simp [List.dropWhile] at h
  | cons c t ih =>
    rw [List.dropWhile_cons] at h ⊢
    by_cases hc : pyWs c
    · rw [if_pos hc] at h ⊢
      have ht : t ≠ [] := by
        intro he; rw [he] at h; simp [List.dropWhile] at h
      rw [ih h]
      cases t with
      | nil => exact absurd rfl ht
      | cons x xs => rw [List.getLast?_cons_cons]
    · rw [if_neg hc]

/-- A non-empty stripped list has non-whitespace ends. -/
theorem pyStrip_good (l : List Char) (h : pyStrip l ≠ []) : goodL (pyStrip l) := by
  unfold pyStrip at h ⊢
  set A := l.dropWhile pyWs with hA
  set B := A.reverse.dropWhile pyWs with hB
  have hBne : B ≠ [] := by
    intro he; rw [he] at h; exact h rfl
  constructor
  · -- head of B.reverse = getLast of B = getLast of A.reverse = head of A
    obtain ⟨b, hb⟩ : ∃ b, B.getLast? = some b := by
      cases hbb : B.getLast? with
      | none => exact absurd (List.getLast?_eq_none_iff.mp hbb) hBne
      | some b => exact ⟨b, rfl⟩
    refine ⟨b, ?_, ?_⟩
    · rw [List.head?_reverse]; exact hb
    · have h1 : B.getLast? = A.reverse.getLast? := getLast?_dropWhile_ws A.reverse hBne
      have h2 : A.reverse.getLast? = A.head? := List.getLast?_reverse A
      exact head_dropWhile_ws l b (by rw [← hA, ← h2, ← h1, hb])
  · obtain ⟨a, ha⟩ : ∃ a, B.head? = some a := by
      cases hbb : B.head? with
      | none => exact absurd (List.head?_eq_none_iff.mp hbb) hBne
      | some a => exact ⟨a, rfl⟩
    refine ⟨a, ?_, ?_⟩
    · rw [List.getLast?_reverse]; exact ha
    · exact head_dropWhile_ws A.reverse a (by rw [← hB, ha])

/-- Stripping a list with non-whitespace ends changes nothing. -/
theorem pyStrip_noop (l : List Char) (h : goodL l) : pyStrip l = l := by
  obtain ⟨⟨a, ha, hwa⟩, ⟨b, hb, hwb⟩⟩ := h
  unfold pyStrip
  have h1 : l.dropWhile pyWs = l := by
    cases l with
    | nil => rfl
    | cons c t =>
      simp at ha
      rw [List.dropWhile_cons, if_neg (by rw [ha]; simp [hwa])]
  rw [h1]
  have h2 : l.reverse.dropWhile pyWs = l.reverse := by
    cases hr : l.reverse with
    | nil => rfl
    | cons c t =>
      have : l.reverse.head? = some b := by rw [List.head?_reverse]; exact hb
      rw [hr] at this; simp at this
      rw [List.dropWhile_cons, if_neg (by rw [this]; simp [hwb])]
  rw [h2, List.reverse_reverse]

/-- Every piece `stripPieces` yields has non-whitespace ends. -/
theorem stripPieces_good (ps : List String) : ∀ u ∈ stripPieces ps, goodL u := by
  intro u hu
  unfold stripPieces at hu
  rw [List.mem_filter] at hu
  obtain ⟨hmem, hne⟩ := hu
  rw [List.mem_map] at hmem
  obtain ⟨x, _, hx⟩ := hmem
  subst hx
  exact pyStrip_good x.data (by simpa using hne)

/-- A space-join of non-empty pieces with non-whitespace ends again has
non-whitespace ends. -/
theorem joinSp_good : ∀ us : List (List Char), us ≠ [] → (∀ u ∈ us, goodL u) →
    goodL (joinSp us)
  | [], h, _ => absurd rfl h
  | [u], _, hall => by simpa [joinSp] using hall u (by simp)
  | u :: v :: vs, _, hall => by
    have hu : goodL u := hall u (by simp)
    have ih : goodL (joinSp (v :: vs)) :=
      joinSp_good (v :: vs) (by simp) (fun w hw => hall w (by simp [hw]))
    obtain ⟨⟨a, ha, hwa⟩, ⟨b, hb, hwb⟩⟩ := hu
    obtain ⟨⟨a2, ha2, hwa2⟩, ⟨b2, hb2, hwb2⟩⟩ := ih
    have hune : u ≠ [] := by intro he; rw [he] at ha; simp at ha
    have hJne : joinSp (v :: vs) ≠ [] := by
      intro he; rw [he] at ha2; simp at ha2
    constructor
    · refine ⟨a, ?_, hwa⟩
      show (u ++ ' ' :: joinSp (v :: vs)).head? = some a
      rw [List.head?_append_of_ne_nil u hune]
      exact ha
    · refine ⟨b2, ?_, hwb2⟩
      show (u ++ ' ' :: joinSp (v :: vs)).getLast? = some b2
      rw [List.getLast?_append_cons]
      exact getLast?_cons_of_ne ' ' _ b2 hb2

/-- Map `replaceNbspL` preserves non-whitespace ends (a non-whitespace
character is never the non-breaking space it rewrites). -/
theorem replaceNbsp_good (l : List Char) (h : goodL l) : goodL (replaceNbspL l) := by
  obtain ⟨⟨a, ha, hwa⟩, ⟨b, hb, hwb⟩⟩ := h
  have fixa : a ≠ '\xa0' := by
    intro he; rw [he] at hwa; exact absurd hwa (by decide)
  have fixb : b ≠ '\xa0' := by
    intro he; rw [he] at hwb; exact absurd hwb (by decide)
  unfold replaceNbspL
  constructor
  · refine ⟨a, ?_, hwa⟩
    rw [List.head?_map, ha]
    simp [fixa]
  · refine ⟨b, ?_, hwb⟩
    rw [List.getLast?_map, hb]
    simp [fixb]

/-- The full content of a page is empty or has non-whitespace ends. -/
theorem contentGood (pg : Page) (h : (fullContent pg).data ≠ []) :
    goodL (fullContent pg).data := by
  unfold fullContent at h ⊢
  apply replaceNbsp_good
  apply joinSp_good _ ?_ (stripPieces_good _)
  intro he
  rw [he] at h
  exact h rfl

/-- Sentence-final punctuation is not whitespace. -/
theorem sentPunct_not_ws (p : Char) (h : sentPunct p = true) : pyWs p = false := by
  unfold sentPunct at h
  rcases Bool.or_eq_true_iff.mp h with h1 | h2
  · rcases Bool.or_eq_true_iff.mp h1 with h3 | h4
    · rw [show p = '.' by simpa using h3]; decide
    · rw [show p = '!' by simpa using h4]; decide
  · rw [show p = '?' by simpa using h2]; decide

/-- The invariant of the sentence splitter: starting from a well-formed
state over content with non-whitespace ends, every produced piece is
non-empty with non-whitespace ends. -/
theorem goSplit_good (cs : List Char) :
    ∀ (acc : List Char) (prev : Option Char) (inWs : Bool),
    (inWs = true → acc = []) →
    (∀ p, prev = some p → acc.head? = some p) →
    (∀ a, acc.getLast? = some a → pyWs a = false) →
    (acc = [] → inWs = false → ∃ a t, cs = a :: t ∧ pyWs a = false) →
    (cs = [] → inWs = false ∧ ∃ p r, acc = p :: r ∧ pyWs p = false) →
    (∀ b, cs.getLast? = some b → pyWs b = false) →
    ∀ u ∈ goSplit cs acc prev inWs, goodL u := by
  induction cs with
  | nil =>
    intro acc prev inWs _ _ hSeg _ hEnd _ u hu
    obtain ⟨_, p, r, hacc, hp⟩ := hEnd rfl
    simp [goSplit] at hu
    subst hu
    constructor
    · rw [List.head?_reverse]
      obtain ⟨b, hb⟩ : ∃ b, acc.getLast? = some b := by
        cases hbb : acc.getLast? with
        | none =>
          rw [List.getLast?_eq_none_iff] at hbb
          rw [hbb] at hacc; cases hacc
        | some b => exact ⟨b, rfl⟩
      exact ⟨b, hb, hSeg b hb⟩
    · rw [List.getLast?_reverse, hacc]
      exact ⟨p, rfl, hp⟩
  | cons c rest ih =>
    intro acc prev inWs hIW hPrev hSeg hStart hEnd hLast u hu
    cases inWs with
    | true =>
      have hacc := hIW rfl; subst hacc
      rw [show goSplit (c :: rest) [] prev true =
            (if pyWs c then goSplit rest [] prev true
             else goSplit rest [c] (some c) false) from rfl] at hu
      by_cases hc : pyWs c
      · rw [if_pos hc] at hu
        have hrne : rest ≠ [] := by
          intro he; subst he
          have := hLast c (by simp)
          rw [this] at hc; cases hc
        refine ih [] prev true (fun _ => rfl) ?_ (by simp) ?_ (fun he => absurd he hrne)
          ?_ u hu
        · intro p hp
          have := hPrev p hp; simp at this
        · intro _ hfalse
          exact Bool.noConfusion hfalse
        · intro b hb
          exact hLast b (getLast?_cons_of_ne c rest b hb)
      · rw [if_neg hc] at hu
        refine ih [c] (some c) false (by simp) ?_ ?_ (by simp) ?_ ?_ u hu
        · intro p hp
          injection hp with hp; rw [← hp]; rfl
        · intro a ha
          simp at ha; rw [← ha]; simpa using hc
        · intro he
          subst he
          refine ⟨rfl, c, [], rfl, ?_⟩
          have := hLast c (by simp)
          exact this
        · intro b hb
          exact hLast b (getLast?_cons_of_ne c rest b hb)
    | false =>
      rw [show goSplit (c :: rest) acc prev false =
            (if pyWs c && prevPunct prev then acc.reverse :: goSplit rest [] none true
             else goSplit rest (c :: acc) (some c) false) from rfl] at hu
      by_cases hcp : pyWs c && prevPunct prev
      · rw [if_pos hcp] at hu
        have hc : pyWs c = true := by
          rcases Bool.and_eq_true_iff.mp hcp with ⟨h1, _⟩; exact h1
        have hpp : prevPunct prev = true := by
          rcases Bool.and_eq_true_iff.mp hcp with ⟨_, h2⟩; exact h2
        obtain ⟨p, hp⟩ : ∃ p, prev = some p := by
          cases prev with
          | none => simp [prevPunct] at hpp
          | some p => exact ⟨p, rfl⟩
        have hhead : acc.head? = some p := hPrev p hp
        have haccne : acc ≠ [] := by
          intro he; rw [he] at hhead; simp at hhead
        rcases List.mem_cons.mp hu with hu1 | hu2
        · subst hu1
          constructor
          · rw [List.head?_reverse]
            obtain ⟨b, hb⟩ : ∃ b, acc.getLast? = some b := by
              cases hbb : acc.getLast? with
              | none => exact absurd (List.getLast?_eq_none_iff.mp hbb) haccne
              | some b => exact ⟨b, rfl⟩
            exact ⟨b, hb, hSeg b hb⟩
          · rw [List.getLast?_reverse]
            have hpu : sentPunct p = true := by rw [hp] at hpp; exact hpp
            exact ⟨p, hhead, sentPunct_not_ws p hpu⟩
        · have hrne : rest ≠ [] := by
            intro he; subst he
            have := hLast c (by simp)
            rw [this] at hc; cases hc
          refine ih [] none true (fun _ => rfl) (by simp) (by simp)
            ?_ (fun he => absurd he hrne) ?_ u hu2
          · intro _ hfalse
            cases hfalse
          · intro b hb
            exact hLast b (getLast?_cons_of_ne c rest b hb)
      · rw [if_neg hcp] at hu
        refine ih (c :: acc) (some c) false (by simp) ?_ ?_ (by simp) ?_ ?_ u hu
        · intro p hp
          injection hp with hp; rw [← hp]; rfl
        · intro a ha
          cases hacc : acc with
          | nil =>
            rw [hacc] at ha; simp at ha
            obtain ⟨a0, t0, he, hwa0⟩ := hStart hacc rfl
            have : c = a0 := by injection he
            rw [← ha, this]; exact hwa0
          | cons x xs =>
            rw [hacc] at ha
            rw [List.getLast?_cons_cons] at ha
            apply hSeg
            rw [hacc]; exact ha
        · intro he
          subst he
          refine ⟨rfl, c, acc, rfl, ?_⟩
          exact hLast c (by simp)
        · intro b hb
          exact hLast b (getLast?_cons_of_ne c rest b hb)

/-- Splitter `goSplit` always returns at least one piece. -/
theorem goSplit_ne_nil (cs : List Char) :
    ∀ acc prev inWs, goSplit cs acc prev inWs ≠ [] := by
  induction cs with
  | nil => intro acc prev inWs; simp [goSplit]
  | cons c rest ih =>
    intro acc prev inWs
    cases inWs with
    | true =>
      show (if pyWs c then goSplit rest acc prev true
            else goSplit rest [c] (some c) false) ≠ []
      by_cases hc : pyWs c
      · rw [if_pos hc]; exact ih _ _ _
      · rw [if_neg hc]; exact ih _ _ _
    | false =>
      show (if pyWs c && prevPunct prev then acc.reverse :: goSplit rest [] none true
            else goSplit rest (c :: acc) (some c) false) ≠ []
      by_cases hc : pyWs c && prevPunct prev
      · rw [if_pos hc]; simp
      · rw [if_neg hc]; exact ih _ _ _

/-- Every sentence piece of content with non-whitespace ends again has
non-whitespace ends. -/
theorem sentSplit_good (cs : List Char) (h : goodL cs) :
    ∀ u ∈ sentSplit cs, goodL u := by
  obtain ⟨⟨a, ha, hwa⟩, ⟨b, hb, hwb⟩⟩ := h
  refine goSplit_good cs [] none false (fun _ => rfl) ?_ ?_ ?_ ?_ ?_
  · intro p hp; cases hp
  · intro a2 ha2; simp at ha2
  · intro _ _
    cases cs with
    | nil => simp at ha
    | cons c t =>
      simp at ha
      exact ⟨c, t, rfl, by rw [ha]; exact hwa⟩
  · intro he; rw [he] at ha; simp at ha
  · intro b2 hb2
    rw [hb] at hb2
    injection hb2 with hbb
    rw [← hbb]; exact hwb

/-- The trailing `.strip()` of the summary is a no-op: the summary equals
the space-join of the first three sentence pieces. -/
theorem summary_core (pg : Page) :
    summaryOf pg = String.mk (joinSp ((sentSplit (fullContent pg).data).take 3)) := by
  unfold summaryOf
  show String.mk (pyStrip (joinSp ((sentSplit (fullContent pg).data).take 3))) =
    String.mk (joinSp ((sentSplit (fullContent pg).data).take 3))
  congr 1
  by_cases hnil : (fullContent pg).data = []
  · rw [hnil]; rfl
  · have hgood := contentGood pg hnil
    have husgood := sentSplit_good _ hgood
    have htake : ∀ u ∈ (sentSplit (fullContent pg).data).take 3, goodL u :=
      fun u hu => husgood u (List.take_subset _ _ hu)
    have hne : (sentSplit (fullContent pg).data).take 3 ≠ [] := by
      have h0 := goSplit_ne_nil (fullContent pg).data [] none false
      cases hs : sentSplit (fullContent pg).data with
      | nil => exact absurd hs h0
      | cons x xs => simp
    exact pyStrip_noop _ (joinSp_good _ hne htake)

/-- C8: for every page whose full content splits into at least three
sentence-like units, the summary field is exactly the first three units
rejoined with single spaces; with fewer than three units it is all
available units rejoined. -/
theorem c8_summary_field (pg : Page) :
    (3 ≤ (sentSplit (fullContent pg).data).length →
      (extract_fields pg).summary =
        String.mk (joinSp ((sentSplit (fullContent pg).data).take 3))) ∧
    ((sentSplit (fullContent pg).data).length < 3 →
      (extract_fields pg).summary = String.mk (joinSp (sentSplit (fullContent pg).data))) := by
  have hcore : (extract_fields pg).summary =
      String.mk (joinSp ((sentSplit (fullContent pg).data).take 3)) := summary_core pg
  refine ⟨fun _ => hcore, fun hlt => ?_⟩
  rw [hcore, List.take_of_length_le (Nat.le_of_lt hlt)]

/-- Witness for `c8_summary_field` on a four-sentence page. -/
theorem c8_witness :
    (extract_fields ⟨none, none, none, [BNode.tag ⟨["One. Two! Three? Four."]⟩]⟩).summary =
      String.mk (joinSp ((sentSplit (fullContent
        (⟨none, none, none, [BNode.tag ⟨["One. Two! Three? Four."]⟩]⟩ : Page)).data).take 3)) :=
  (c8_summary_field ⟨none, none, none, [BNode.tag ⟨["One. Two! Three? Four."]⟩]⟩).1 (by decide)

end EV

